import Mathlib

/-!
Verification development for the EDINET filing-corpus pipeline
(`edinet/edinet_core.py`, `edinet/document_processor.py`, `xbrl/analyzer.py`,
`xbrl/processor.py`, `xbrl_getter_async.py`).

The Python functions are shallowly embedded: pandas DataFrames become lists of
row structures plus column-presence flags, network I/O becomes an explicit
outcome function `Nat → Except FetchError (List Doc)`, and dates become `Nat`
day numbers (a larger number is a later date).  Each definition mirrors one
source function and keeps its name.
-/

/-! ## String helpers

`strContainsSub s pat` mirrors Python's `pat in s` and pandas
`Series.str.contains(pat, ...)` with a literal (regex-metacharacter-free)
pattern, as used by the source: the patterns are digit strings, the marker
"訂正", and company names. -/

def listStarts : List Char → List Char → Bool
  | [], _ => true
  | _ :: _, [] => false
  | p :: ps, c :: cs => p == c && listStarts ps cs

def listHasSub (pat : List Char) : List Char → Bool
  | [] => pat.isEmpty
  | c :: cs => listStarts pat (c :: cs) || listHasSub pat cs

/-- `pat` occurs as a contiguous substring of `s` (Python `pat in s`). -/
def strContainsSub (s pat : String) : Bool :=
  listHasSub pat.data s.data

/-- Python `str(seccode).lstrip("0")`. -/
def stripLeadingZeros (s : String) : String :=
  ⟨s.data.dropWhile (· == '0')⟩

/-- `drop_duplicates()` keeping the first occurrence of each element,
as pandas does. `seen` accumulates the elements already emitted. -/
def dedupFirstAux {α : Type} [DecidableEq α] : List α → List α → List α
  | _, [] => []
  | seen, x :: xs =>
      if x ∈ seen then dedupFirstAux seen xs
      else x :: dedupFirstAux (x :: seen) xs

def dedupFirst {α : Type} [DecidableEq α] (l : List α) : List α :=
  dedupFirstAux [] l

theorem mem_dedupFirstAux {α : Type} [DecidableEq α] (a : α) :
    ∀ (l seen : List α), a ∈ dedupFirstAux seen l ↔ a ∈ l ∧ a ∉ seen := by
  intro l
  induction l with
  | nil => intro seen; simp [dedupFirstAux]
  | cons x xs ih =>
      intro seen
      by_cases hx : x ∈ seen
      · simp only [dedupFirstAux, if_pos hx, ih, List.mem_cons]
        constructor
        · rintro ⟨h1, h2⟩
          exact ⟨Or.inr h1, h2⟩
        · rintro ⟨rfl | h1, h2⟩
          · exact absurd hx h2
          · exact ⟨h1, h2⟩
      · simp only [dedupFirstAux, if_neg hx, List.mem_cons, ih, not_or]
        constructor
        · rintro (rfl | ⟨h1, h2, h3⟩)
          · exact ⟨Or.inl rfl, hx⟩
          · exact ⟨Or.inr h1, h3⟩
        · rintro ⟨rfl | h1, h2⟩
          · exact Or.inl rfl
          · by_cases hax : a = x
            · exact Or.inl hax
            · exact Or.inr ⟨h1, hax, h2⟩

theorem mem_dedupFirst {α : Type} [DecidableEq α] (a : α) (l : List α) :
    a ∈ dedupFirst l ↔ a ∈ l := by
  simp [dedupFirst, mem_dedupFirstAux]

theorem nodup_dedupFirstAux {α : Type} [DecidableEq α] :
    ∀ (l seen : List α), (dedupFirstAux seen l).Nodup := by
  intro l
  induction l with
  | nil => intro seen; simp [dedupFirstAux]
  | cons x xs ih =>
      intro seen
      by_cases hx : x ∈ seen
      · simpa [dedupFirstAux, if_pos hx] using ih seen
      · simp only [dedupFirstAux, if_neg hx]
        refine List.nodup_cons.2 ⟨fun hmem => ?_, ih (x :: seen)⟩
        exact ((mem_dedupFirstAux x xs (x :: seen)).1 hmem).2 (List.mem_cons_self _ _)

theorem nodup_dedupFirst {α : Type} [DecidableEq α] (l : List α) :
    (dedupFirst l).Nodup :=
  nodup_dedupFirstAux l []

/-- Integer parsing mirroring Python `int(m)` on a plain numeral: an optional
sign followed by one or more decimal digits.  (Python also tolerates
surrounding whitespace and underscore separators; the source's XBRL numerals
are plain digit strings, which this models exactly.) -/
def digitVal (c : Char) : Option Nat :=
  if '0' ≤ c && c ≤ '9' then some (c.toNat - '0'.toNat) else none

def parseNatAux : List Char → Nat → Option Nat
  | [], acc => some acc
  | c :: cs, acc =>
      match digitVal c with
      | none => none
      | some d => parseNatAux cs (acc * 10 + d)

def parseIntStr (s : String) : Option Int :=
  match s.data with
  | [] => none
  | '-' :: rest =>
      if rest.isEmpty then none
      else (parseNatAux rest 0).map (fun n => -(n : Int))
  | '+' :: rest =>
      if rest.isEmpty then none
      else (parseNatAux rest 0).map (fun n => (n : Int))
  | l => (parseNatAux l 0).map (fun n => (n : Int))

/-! ## Range crawler (`edinet/edinet_core.py`)

`fetch_documents_for_date` performs one listing request for one calendar day;
its whole body sits inside `try: ... except Exception: return []`, so every
transport/status/payload failure degrades to `[]`.  The network is modelled by
an outcome per day, `Except FetchError (List Doc)`; dates are `Nat` day
numbers and the returned records are tagged with their day, exactly as the
source tags each document with `date_str`. -/

inductive FetchError : Type
  | network : FetchError
  | badStatus : Nat → FetchError
  | malformedPayload : FetchError
deriving DecidableEq

/-- `fetch_documents_for_date(session, date_str, semaphore)`: on success the
`results` array is tagged with the date; on any caught exception the day
yields `[]`. -/
def fetch_documents_for_date {Doc : Type} (date : Nat)
    (outcome : Except FetchError (List Doc)) : List (Nat × Doc) :=
  match outcome with
  | Except.error _ => []
  | Except.ok docs => docs.map (fun d => (date, d))

/-- The list of days built by the `while current_date <= end_date` loop:
every day from `s` to `e` inclusive. -/
def date_list (s e : Nat) : List Nat :=
  (List.range (e + 1 - s)).map (s + ·)

/-- `collect_documents_for_period_async(start_date, end_date)`: one fetch per
day in the inclusive range, results flattened in day order (`asyncio.gather`
keeps task order). -/
def collect_documents_for_period_async {Doc : Type}
    (registry : Nat → Except FetchError (List Doc)) (s e : Nat) :
    List (Nat × Doc) :=
  (date_list s e).flatMap (fun d => fetch_documents_for_date d (registry d))

theorem fetch_tag {Doc : Type} (date : Nat)
    (outcome : Except FetchError (List Doc)) :
    ∀ p ∈ fetch_documents_for_date date outcome, p.1 = date := by
  intro p hp
  cases outcome with
  | error e => simp [fetch_documents_for_date] at hp
  | ok docs =>
      simp only [fetch_documents_for_date, List.mem_map] at hp
      obtain ⟨d, _, rfl⟩ := hp
      rfl

/-- Replacing one day's per-day contribution by `[]` removes exactly that
day's tagged records from the flattened result. -/
theorem flatMap_update_empty {Doc : Type} (f : Nat → List (Nat × Doc))
    (hf : ∀ d, ∀ p ∈ f d, p.1 = d) (d0 : Nat) :
    ∀ L : List Nat,
      (L.flatMap (fun d => if d = d0 then [] else f d))
        = (L.flatMap f).filter (fun p => !(p.1 == d0)) := by
  intro L
  induction L with
  | nil => simp
  | cons d ds ih =>
      by_cases hd : d = d0
      · subst hd
        have hnil : (f d).filter (fun p => !(p.1 == d)) = [] :=
          List.filter_eq_nil_iff.2 (fun p hp => by simp [hf d p hp])
        simp only [List.flatMap_cons, if_pos rfl, if_true, eq_self_iff_true,
          List.nil_append, List.filter_append, hnil, ih]
      · have hself : (f d).filter (fun p => !(p.1 == d0)) = f d :=
          List.filter_eq_self.2 (fun p hp => by simp [hf d p hp, hd])
        simp only [List.flatMap_cons, if_neg hd, List.filter_append, hself, ih]

/-- C3: For every inclusive date range, the range crawl equals the union over
each calendar day of that day's fetch result (membership characterization),
and replacing any single day's fetch result with the empty list leaves every
other day's contribution unchanged: the result is exactly the original crawl
with that day's tagged records filtered out. -/
theorem C3_range_crawl_union (Doc : Type)
    (registry : Nat → Except FetchError (List Doc)) (s e : Nat) :
    (∀ p : Nat × Doc,
        p ∈ collect_documents_for_period_async registry s e ↔
          ∃ d ∈ date_list s e, p ∈ fetch_documents_for_date d (registry d)) ∧
    (∀ d0 : Nat,
        collect_documents_for_period_async
            (fun d => if d = d0 then Except.ok [] else registry d) s e
          = (collect_documents_for_period_async registry s e).filter
              (fun p => !(p.1 == d0))) := by
  constructor
  · intro p
    simp [collect_documents_for_period_async, List.mem_flatMap]
  · intro d0
    have h := flatMap_update_empty
      (fun d => fetch_documents_for_date d (registry d))
      (fun d => fetch_tag d (registry d)) d0 (date_list s e)
    simp only [collect_documents_for_period_async]
    rw [← h]
    congr 1
    funext d
    by_cases hd : d = d0 <;> simp [hd, fetch_documents_for_date]

/-- C4: a failing listing request for a day is caught and yields the empty
result for that day; the range crawl with one day failing equals the full
crawl with exactly that day's records removed (all other days unaffected).
The Lean embedding of the crawl is a total function into `List (Nat × Doc)`
— not into an error monad — which is the model of "the overall call always
returns normally, never raising to its caller". -/
theorem C4_per_day_failure_isolated (Doc : Type)
    (registry : Nat → Except FetchError (List Doc)) (s e d0 : Nat)
    (err : FetchError) :
    @fetch_documents_for_date Doc d0 (Except.error err) = [] ∧
    collect_documents_for_period_async
        (fun d => if d = d0 then Except.error err else registry d) s e
      = (collect_documents_for_period_async registry s e).filter
          (fun p => !(p.1 == d0)) := by
  constructor
  · rfl
  · have h := flatMap_update_empty
      (fun d => fetch_documents_for_date d (registry d))
      (fun d => fetch_tag d (registry d)) d0 (date_list s e)
    simp only [collect_documents_for_period_async]
    rw [← h]
    congr 1
    funext d
    by_cases hd : d = d0 <;> simp [hd, fetch_documents_for_date]

/-! ## Per-document processing (`xbrl/processor.py` / `xbrl_getter_async.py`,
`process_document`)

The extractor returns per-file records whose identity fields were read from
inside the tagged-text document; `process_document` then overwrites 会社名
with the `filerName` taken from the corpus CSV row, and attaches `docID`,
`document_date` and `docDescription` from the same row, before collecting the
record. -/

/-- A record as produced by the indicator extractor: the company name read
from inside the document, plus the other identity fields. -/
structure XbrlData where
  kaishamei : String
  kessanki : String
  fileName : String
deriving DecidableEq

/-- A record after `process_document` merged in the corpus row's metadata. -/
structure ProcessedData where
  kaishamei : String
  kessanki : String
  fileName : String
  docID : String
  documentDate : String
  docDescription : String
deriving DecidableEq

/-- `process_document(..., doc_id, company, doc_description, row)`: every
extracted record gets 会社名 overwritten with the CSV `company`
(`financial_data["会社名"] = company`), and the row's identifiers attached.
(The extractor always returns a non-empty dict, so the `if financial_data:`
guard admits every successfully extracted record.) -/
def process_document (company doc_id doc_description document_date : String)
    (extracted : List XbrlData) : List ProcessedData :=
  extracted.map (fun fd =>
    { kaishamei := company
      kessanki := fd.kessanki
      fileName := fd.fileName
      docID := doc_id
      documentDate := document_date
      docDescription := doc_description })

/-- C10: every record emitted by `process_document` carries the corpus row's
filer name as its entity name, and the output is entirely independent of the
company name the extractor found inside the document. -/
theorem C10_company_name_overwritten :
    (∀ (company doc_id ddesc ddate : String) (extracted : List XbrlData)
        (p : ProcessedData),
        p ∈ process_document company doc_id ddesc ddate extracted →
          p.kaishamei = company) ∧
    (∀ (company doc_id ddesc ddate other : String)
        (extracted : List XbrlData),
        process_document company doc_id ddesc ddate
            (extracted.map (fun fd => { fd with kaishamei := other }))
          = process_document company doc_id ddesc ddate extracted) := by
  constructor
  · intro company doc_id ddesc ddate extracted p hp
    simp only [process_document, List.mem_map] at hp
    obtain ⟨fd, _, rfl⟩ := hp
    rfl
  · intro company doc_id ddesc ddate other extracted
    simp [process_document]

/-- Witness for C10 at a concrete input: an extractor record whose in-document
company name is 別会社 ends up attributed to the CSV filer トヨタ自動車. -/
theorem C10_witness :
    ∀ p ∈ process_document "トヨタ自動車" "D1" "有価証券報告書" "2023-06-30"
        [⟨"別会社", "2023年3月31日", "jpcrp.xbrl"⟩],
      p.kaishamei = "トヨタ自動車" := by
  intro p hp
  exact C10_company_name_overwritten.1 "トヨタ自動車" "D1" "有価証券報告書"
    "2023-06-30" [⟨"別会社", "2023年3月31日", "jpcrp.xbrl"⟩] p hp

/-! ## Filing tables (`edinet/document_processor.py`)

A pandas DataFrame of filings is a list of rows plus column-presence flags
for the three columns the source tests or indexes defensively
(`referenceDocID`, `docDescription`, `parentDocID`).  A missing cell (NaN)
is `none`; `secCode` is modelled post-`fillna("").astype(str)`, i.e. as a
plain string.  `document_date` is a day number (larger = later). -/

structure Row where
  docID : String
  docDescription : Option String
  referenceDocID : Option String
  parentDocID : Option String
  secCode : String
  filerName : Option String
  documentDate : Nat
deriving DecidableEq

structure DataFrame where
  hasDescCol : Bool
  hasRefCol : Bool
  hasParentCol : Bool
  rows : List Row
deriving DecidableEq

/-- `df["docDescription"].str.contains("訂正", na=False)` for one row. -/
def isCorrection (r : Row) : Bool :=
  match r.docDescription with
  | none => false
  | some d => strContainsSub d "訂正"

/-- The ids collected by the description-based pass:
`df[df["docDescription"].str.contains("訂正", na=False)]["referenceDocID"].dropna()`.
(The source also applies `.unique()`, which does not change membership and
hence not the result of `isin`.) -/
def referencedIds (rows : List Row) : List String :=
  (rows.filter isCorrection).filterMap (·.referenceDocID)

/-- `filter_corrected_reports(df)`: skip (returning the input) when the
`referenceDocID` column is absent; the `except Exception` branch likewise
returns the input when `docDescription` is absent (the column index raises
KeyError inside the `try`).  Otherwise drop every row whose `docID` appears
among the correction rows' reference ids. -/
def filter_corrected_reports (df : DataFrame) : DataFrame :=
  if df.hasRefCol = false then df
  else if df.hasDescCol = false then df
  else { df with
          rows := df.rows.filter
            (fun r => !(decide (r.docID ∈ referencedIds df.rows))) }

/-- The ids collected by the parent-based pass in `process_final_reports`:
`correction_reports["parentDocID"].dropna().unique()`. -/
def parentIds (rows : List Row) : List String :=
  (rows.filter isCorrection).filterMap (·.parentDocID)

/-- `process_final_reports(path)`: the whole body is inside
`try: ... except Exception: return None`, and there is no column-presence
check — indexing a missing `docDescription` or `parentDocID` column raises
KeyError, so the function returns `None` (no output file is written).
Otherwise it drops every row whose `docID` appears among the correction rows'
parent ids and returns the resulting table. -/
def process_final_reports (df : DataFrame) : Option DataFrame :=
  if df.hasDescCol = false then none
  else if df.hasParentCol = false then none
  else some { df with
                rows := df.rows.filter
                  (fun r => !(decide (r.docID ∈ parentIds df.rows))) }

/-! ## Entity matcher (`create_filtered_documents_with_pandas`) -/

structure Company where
  name : String
  seccode : String
deriving DecidableEq

/-- The per-company mask:
`df["secCode"].str.contains(code_base, na=False) |
 df["secCode"].str.contains(code_with_zero, na=False) |
 df["filerName"].str.contains(company_name, na=False)`
with `code_base = str(seccode).lstrip("0")` and
`code_with_zero = code_base + "0"`. -/
def company_mask (c : Company) (r : Row) : Bool :=
  let code_base := stripLeadingZeros c.seccode
  let code_with_zero := code_base ++ "0"
  strContainsSub r.secCode code_base ||
  strContainsSub r.secCode code_with_zero ||
  (match r.filerName with
   | none => false
   | some n => strContainsSub n c.name)

/-- The concatenation of each company's matching rows
(`matched_rows = pd.concat([matched_rows, company_rows])` over the company
loop; companies with an empty `seccode` are skipped by `continue`). -/
def matched_rows (rows : List Row) (companies : List Company) : List Row :=
  companies.flatMap
    (fun c => if c.seccode = "" then [] else rows.filter (company_mask c))

/-- `create_filtered_documents_with_pandas(all_documents_csv, companies, ...)`:
if anything matched, the matches are deduplicated (`drop_duplicates`, first
occurrence kept) and saved; if nothing matched, the source logs a warning and
uses the whole input table (`matched_rows = df`). -/
def create_filtered_documents_with_pandas
    (rows : List Row) (companies : List Company) : List Row :=
  if (matched_rows rows companies).isEmpty then rows
  else dedupFirst (matched_rows rows companies)

/-- The matching rule exactly as the spec's words state it, for comparison
with `company_mask`: the filing's code and the entity's code are both
stripped of leading zeros and compared for equality, allowing one extra
trailing zero on the filing's side; otherwise the filer name must contain the
canonical name. -/
def spec_entity_match (c : Company) (r : Row) : Bool :=
  (stripLeadingZeros r.secCode == stripLeadingZeros c.seccode) ||
  (stripLeadingZeros r.secCode == stripLeadingZeros c.seccode ++ "0") ||
  (match r.filerName with
   | none => false
   | some n => strContainsSub n c.name)

/-! ### Helper lemmas about the two correction passes -/

theorem fcr_eq_self_of_noRef (df : DataFrame) (h : df.hasRefCol = false) :
    filter_corrected_reports df = df := by
  simp [filter_corrected_reports, h]

theorem fcr_eq_self_of_noDesc (df : DataFrame) (h : df.hasDescCol = false) :
    filter_corrected_reports df = df := by
  by_cases h1 : df.hasRefCol = false
  · simp [filter_corrected_reports, h1]
  · simp [filter_corrected_reports, h1, h]

theorem fcr_main (df : DataFrame) (h1 : df.hasRefCol = true)
    (h2 : df.hasDescCol = true) :
    filter_corrected_reports df =
      { df with
          rows := df.rows.filter
            (fun r => !(decide (r.docID ∈ referencedIds df.rows))) } := by
  simp [filter_corrected_reports, h1, h2]

theorem mem_referencedIds (x : String) (rows : List Row) :
    x ∈ referencedIds rows ↔
      ∃ s ∈ rows, isCorrection s = true ∧ s.referenceDocID = some x := by
  simp only [referencedIds, List.mem_filterMap, List.mem_filter]
  constructor
  · rintro ⟨s, ⟨hs, hc⟩, hf⟩
    exact ⟨s, hs, hc, hf⟩
  · rintro ⟨s, hs, hc, hf⟩
    exact ⟨s, ⟨hs, hc⟩, hf⟩

theorem mem_parentIds (x : String) (rows : List Row) :
    x ∈ parentIds rows ↔
      ∃ s ∈ rows, isCorrection s = true ∧ s.parentDocID = some x := by
  simp only [parentIds, List.mem_filterMap, List.mem_filter]
  constructor
  · rintro ⟨s, ⟨hs, hc⟩, hf⟩
    exact ⟨s, hs, hc, hf⟩
  · rintro ⟨s, hs, hc, hf⟩
    exact ⟨s, ⟨hs, hc⟩, hf⟩

theorem referencedIds_of_filter_subset (rows : List Row) (p : Row → Bool)
    (x : String) (hx : x ∈ referencedIds (rows.filter p)) :
    x ∈ referencedIds rows := by
  rw [mem_referencedIds] at hx ⊢
  obtain ⟨s, hs, hc, hf⟩ := hx
  exact ⟨s, (List.mem_filter.1 hs).1, hc, hf⟩

/-- Removal from a filtered row list, for a row known to be in the input. -/
theorem not_mem_filter_iff (r : Row) (rows : List Row) (p : Row → Bool)
    (hr : r ∈ rows) : r ∉ rows.filter p ↔ p r = false := by
  rw [List.mem_filter]
  constructor
  · intro h
    cases hp : p r
    · rfl
    · exact absurd ⟨hr, hp⟩ h
  · rintro h ⟨_, hp⟩
    rw [h] at hp
    cases hp

/-! ### C2: correction resolution and submission dates -/

/-- An original filing dated day 20230630. -/
def c2rowA : Row :=
  ⟨"D1", some "有価証券報告書", none, none, "7203", some "トヨタ自動車", 20230630⟩

/-- A correction filing referencing `c2rowA`, dated day 20230101 — *earlier*
than the filing it corrects. -/
def c2rowB : Row :=
  ⟨"D2", some "訂正有価証券報告書", some "D1", none, "7203", some "トヨタ自動車", 20230101⟩

def c2df : DataFrame := ⟨true, true, true, [c2rowA, c2rowB]⟩

/-- C2 counterexample: the description-based pass removes `c2rowA` although no
filing in the set with a strictly later submission date references it — the
only referencing filing, `c2rowB`, is dated earlier.  The resolver never
consults dates. -/
theorem C2_counterexample :
    c2rowA ∈ c2df.rows ∧
    c2rowA ∉ (filter_corrected_reports c2df).rows ∧
    (∀ s ∈ c2df.rows,
        (s.referenceDocID = some c2rowA.docID ∨
         s.parentDocID = some c2rowA.docID) →
        ¬ c2rowA.documentDate < s.documentDate) := by
  decide

/-- C2 amended: in either pass, a filing in the input is removed exactly when
some filing of the set whose description contains the correction marker
references its identifier through the pass's linkage field — with no
constraint on submission dates, and the referencing filing not required to be
distinct from the removed one. -/
theorem C2_removal_characterization (df : DataFrame) (r : Row)
    (h1 : df.hasRefCol = true) (h2 : df.hasDescCol = true)
    (hr : r ∈ df.rows) :
    (r ∉ (filter_corrected_reports df).rows ↔
      ∃ s ∈ df.rows, isCorrection s = true ∧ s.referenceDocID = some r.docID) ∧
    (∀ out : DataFrame, process_final_reports df = some out →
      (r ∉ out.rows ↔
        ∃ s ∈ df.rows, isCorrection s = true ∧ s.parentDocID = some r.docID)) := by
  constructor
  · rw [fcr_main df h1 h2]
    rw [not_mem_filter_iff r df.rows _ hr]
    rw [← mem_referencedIds]
    simp
  · intro out hout
    have h3 : df.hasParentCol = true := by
      by_contra h3
      have h3' : df.hasParentCol = false := by
        cases hp : df.hasParentCol
        · rfl
        · exact absurd hp h3
      simp [process_final_reports, h2, h3'] at hout
    have hout' : out.rows =
        df.rows.filter (fun r => !(decide (r.docID ∈ parentIds df.rows))) := by
      simp only [process_final_reports, h2, h3] at hout
      simp at hout
      rw [← hout]
    rw [hout', not_mem_filter_iff r df.rows _ hr]
    rw [← mem_parentIds]
    simp

/-- C2 witness: in a concrete two-row table, the original is removed because a
correction (here a later-dated one) references it. -/
theorem C2_witness :
    c2rowA ∉ (filter_corrected_reports c2df).rows ∧
    c2rowB ∈ (filter_corrected_reports c2df).rows :=
  ⟨((C2_removal_characterization c2df c2rowA rfl rfl (by decide)).1).2
      ⟨c2rowB, by decide, by decide, by decide⟩,
   by decide⟩

/-! ### C6: resolution is a subset operation, idempotent, with set semantics -/

/-- Original filing A of the spec scenario (id "1"). -/
def c6rowA : Row :=
  ⟨"1", some "有価証券報告書－第10期", none, none, "7203", some "トヨタ自動車", 20230630⟩

/-- Correction filing B of the spec scenario: description contains 訂正 and
`referenceDocID` is "1". -/
def c6rowB : Row :=
  ⟨"2", some "訂正有価証券報告書－第10期", some "1", none, "7203", some "トヨタ自動車", 20230715⟩

def c6df : DataFrame := ⟨true, true, true, [c6rowA, c6rowB]⟩

/-- C6: the description-based resolution keeps a sublist of its input (each
surviving row appears once, in place — set semantics, no duplication), it is
idempotent, and on the scenario {A, B} it yields exactly {B}. -/
theorem C6_resolve_subset_idempotent (df : DataFrame) :
    (filter_corrected_reports df).rows.Sublist df.rows ∧
    filter_corrected_reports (filter_corrected_reports df)
      = filter_corrected_reports df ∧
    (filter_corrected_reports c6df).rows = [c6rowB] := by
  refine ⟨?_, ?_, by decide⟩
  · by_cases h1 : df.hasRefCol = false
    · rw [fcr_eq_self_of_noRef df h1]
    · by_cases h2 : df.hasDescCol = false
      · rw [fcr_eq_self_of_noDesc df h2]
      · rw [fcr_main df (by revert h1; cases df.hasRefCol <;> simp)
            (by revert h2; cases df.hasDescCol <;> simp)]
        exact List.filter_sublist df.rows
  · by_cases h1 : df.hasRefCol = false
    · rw [fcr_eq_self_of_noRef df h1, fcr_eq_self_of_noRef df h1]
    · by_cases h2 : df.hasDescCol = false
      · rw [fcr_eq_self_of_noDesc df h2, fcr_eq_self_of_noDesc df h2]
      · have h1' : df.hasRefCol = true := by revert h1; cases df.hasRefCol <;> simp
        have h2' : df.hasDescCol = true := by revert h2; cases df.hasDescCol <;> simp
        have hmain := fcr_main df h1' h2'
        set p := fun r : Row => !(decide (r.docID ∈ referencedIds df.rows)) with hp
        have hmain2 := fcr_main { df with rows := df.rows.filter p }
          (by simpa using h1') (by simpa using h2')
        rw [hmain, hmain2]
        have hfix : (df.rows.filter p).filter
            (fun r => !(decide (r.docID ∈ referencedIds (df.rows.filter p))))
            = df.rows.filter p := by
          refine List.filter_eq_self.2 ?_
          intro r hrmem
          have hkeep : p r = true := (List.mem_filter.1 hrmem).2
          have hnot : r.docID ∉ referencedIds df.rows := by
            rw [hp] at hkeep
            simpa using hkeep
          have : r.docID ∉ referencedIds (df.rows.filter p) := fun hin =>
            hnot (referencedIds_of_filter_subset df.rows p r.docID hin)
          simpa using this
        simp [hfix]

/-! ### C7: fail-open behaviour on absent linkage data -/

/-- A row used by the C7 counterexample table. -/
def c7row : Row :=
  ⟨"D10", some "有価証券報告書", none, none, "6758", some "ソニーグループ", 20230620⟩

/-- A table whose `parentDocID` column is entirely absent. -/
def c7df : DataFrame := ⟨true, true, false, [c7row]⟩

/-- C7 counterexample: when the `parentDocID` column is missing, the
parent-based stage (`process_final_reports`) does not pass its input through —
it returns `None` and writes no output. -/
theorem C7_counterexample :
    process_final_reports c7df = none ∧ c7df.rows ≠ [] := by
  decide

/-- C7 amended: the description-based resolver is a pass-through no-op when
its `referenceDocID` or `docDescription` column is missing, or when every
correction row's reference field is empty; the parent-based pass is likewise a
no-op when every correction row's parent field is empty — but on a missing
column it returns `None` (an aborted stage with no output) instead of passing
the input through. -/
theorem C7_fail_open (df : DataFrame) :
    (df.hasRefCol = false → filter_corrected_reports df = df) ∧
    (df.hasDescCol = false → filter_corrected_reports df = df) ∧
    ((∀ r ∈ df.rows, isCorrection r = true → r.referenceDocID = none) →
        filter_corrected_reports df = df) ∧
    (df.hasDescCol = true → df.hasParentCol = true →
      (∀ r ∈ df.rows, isCorrection r = true → r.parentDocID = none) →
        process_final_reports df = some df) ∧
    ((df.hasDescCol = false ∨ df.hasParentCol = false) →
        process_final_reports df = none) := by
  refine ⟨fcr_eq_self_of_noRef df, fcr_eq_self_of_noDesc df, ?_, ?_, ?_⟩
  · intro hall
    by_cases h1 : df.hasRefCol = false
    · exact fcr_eq_self_of_noRef df h1
    · by_cases h2 : df.hasDescCol = false
      · exact fcr_eq_self_of_noDesc df h2
      · have h1' : df.hasRefCol = true := by revert h1; cases df.hasRefCol <;> simp
        have h2' : df.hasDescCol = true := by revert h2; cases df.hasDescCol <;> simp
        rw [fcr_main df h1' h2']
        have hids : referencedIds df.rows = [] := by
          refine List.filterMap_eq_nil_iff.2 ?_
          intro s hs
          exact hall s (List.mem_filter.1 hs).1 (List.mem_filter.1 hs).2
        have : df.rows.filter
            (fun r => !(decide (r.docID ∈ referencedIds df.rows))) = df.rows := by
          refine List.filter_eq_self.2 ?_
          intro r _
          simp [hids]
        rw [this]
  · intro h2 h3 hall
    obtain ⟨a, b, c, rws⟩ := df
    dsimp only at h2 h3 hall ⊢
    subst h2
    subst h3
    have hids : parentIds rws = [] := by
      refine List.filterMap_eq_nil_iff.2 ?_
      intro s hs
      exact hall s (List.mem_filter.1 hs).1 (List.mem_filter.1 hs).2
    have hrows : rws.filter
        (fun r => !(decide (r.docID ∈ parentIds rws))) = rws := by
      refine List.filter_eq_self.2 ?_
      intro r _
      simp [hids]
    simp [process_final_reports, hrows]
  · rintro (h | h) <;> simp [process_final_reports, h]

/-- A correction row with both linkage fields empty, for the C7 witness. -/
def c7wrow : Row :=
  ⟨"D20", some "訂正有価証券報告書", none, none, "6758", some "ソニーグループ", 20230625⟩

def c7wdf : DataFrame := ⟨true, true, true, [c7wrow]⟩

/-- C7 witness: with the linkage fields empty on every correction row, both
passes return their input unchanged. -/
theorem C7_witness :
    filter_corrected_reports c7wdf = c7wdf ∧
    process_final_reports c7wdf = some c7wdf :=
  ⟨(C7_fail_open c7wdf).2.2.1 (by decide),
   (C7_fail_open c7wdf).2.2.2.1 rfl rfl (by decide)⟩

/-! ### C1 / C9: entity matching -/

/-- Membership in the concatenated per-company matches. -/
theorem mem_matched_rows (r : Row) (rows : List Row)
    (companies : List Company) :
    r ∈ matched_rows rows companies ↔
      r ∈ rows ∧ ∃ c ∈ companies, ¬(c.seccode = "") ∧ company_mask c r = true := by
  simp only [matched_rows, List.mem_flatMap]
  constructor
  · rintro ⟨c, hc, hr⟩
    by_cases hsec : c.seccode = ""
    · rw [if_pos hsec] at hr
      cases hr
    · rw [if_neg hsec] at hr
      have := List.mem_filter.1 hr
      exact ⟨this.1, c, hc, hsec, this.2⟩
  · rintro ⟨hrows, c, hc, hsec, hmask⟩
    exact ⟨c, hc, by rw [if_neg hsec]; exact List.mem_filter.2 ⟨hrows, hmask⟩⟩

/-- The tracked entity of the C1 counterexample. -/
def c1company : Company := ⟨"トヨタ自動車", "7203"⟩

/-- A filing whose security code "17203" merely *contains* "7203" and whose
filer name does not contain the entity name. -/
def c1row : Row :=
  ⟨"D100", some "有価証券報告書", none, none, "17203", some "サンプル商事", 20230630⟩

/-- C1 counterexample: the matcher includes `c1row` for entity code "7203"
(pandas `str.contains` substring matching), although the spec's stated rule —
equality of the leading-zero-stripped codes, possibly with one trailing zero
appended — rejects it, and its filer name does not contain the entity name. -/
theorem C1_counterexample :
    c1row ∈ create_filtered_documents_with_pandas [c1row] [c1company] ∧
    spec_entity_match c1company c1row = false := by
  decide

/-- Rows used by the concrete secCode-matching conjuncts of the C1 theorem. -/
def code7203row : Row :=
  ⟨"D101", some "有価証券報告書", none, none, "7203", some "サンプル商事", 20230630⟩

def code72030row : Row :=
  ⟨"D102", some "有価証券報告書", none, none, "72030", some "サンプル商事", 20230630⟩

def code1720row : Row :=
  ⟨"D103", some "有価証券報告書", none, none, "1720", some "サンプル商事", 20230630⟩

/-- C1 amended: whenever anything matched at all, a filing is included exactly
when its security code contains the entity's leading-zero-stripped code (or
that code with one trailing zero appended) as a *substring*, or its filer name
contains the entity's canonical name as a substring; the particular examples
hold — entity code "7203" matches filing codes "7203" and "72030" and does
not match "1720". -/
theorem C1_matcher_characterization (rows : List Row)
    (companies : List Company)
    (h : (matched_rows rows companies).isEmpty = false) :
    (∀ r : Row,
        r ∈ create_filtered_documents_with_pandas rows companies ↔
          r ∈ rows ∧
            ∃ c ∈ companies, ¬(c.seccode = "") ∧ company_mask c r = true) ∧
    company_mask c1company code7203row = true ∧
    company_mask c1company code72030row = true ∧
    company_mask c1company code1720row = false := by
  refine ⟨?_, by decide, by decide, by decide⟩
  intro r
  rw [create_filtered_documents_with_pandas, if_neg (by simp [h])]
  rw [mem_dedupFirst]
  exact mem_matched_rows r rows companies

/-- C1 witness (the spec §8 Toyota scenario): filer code "72030" is matched
for entity code "7203" and indeed appears in the output. -/
theorem C1_witness :
    code72030row ∈
      create_filtered_documents_with_pandas [code72030row] [c1company] := by
  have h := C1_matcher_characterization [code72030row] [c1company] (by decide)
  exact (h.1 code72030row).2 ⟨by decide, c1company, by decide, by decide, h.2.2.1⟩

/-- The tracked entity of the C9 counterexample: nothing in the corpus
matches it. -/
def c9company : Company := ⟨"アルファ工業", "9999"⟩

/-- A filing matching no tracked entity. -/
def c9row : Row :=
  ⟨"D500", some "有価証券報告書", none, none, "1234", some "ベータ商事", 20230601⟩

/-- C9 counterexample: when every tracked entity matches zero filings, the
matcher does not output zero rows — it substitutes the whole (non-matching)
input table as its result. -/
theorem C9_counterexample :
    create_filtered_documents_with_pandas [c9row] [c9company] = [c9row] ∧
    company_mask c9company c9row = false ∧
    ([c9row] : List Row) ≠ [] := by
  decide

/-- C9 amended: if at least one filing matched some tracked entity, every
output row matches some tracked entity — an entity with zero matches
contributes nothing and no non-matching filing is substituted; but if *no*
entity matched anything, the matcher falls back to emitting the entire input
corpus unchanged (logged as a warning). -/
theorem C9_zero_match_behaviour (rows : List Row) (companies : List Company) :
    ((matched_rows rows companies).isEmpty = false →
      ∀ r ∈ create_filtered_documents_with_pandas rows companies,
        ∃ c ∈ companies, ¬(c.seccode = "") ∧ company_mask c r = true) ∧
    ((matched_rows rows companies).isEmpty = true →
      create_filtered_documents_with_pandas rows companies = rows) := by
  constructor
  · intro h r hr
    rw [create_filtered_documents_with_pandas, if_neg (by simp [h])] at hr
    rw [mem_dedupFirst] at hr
    exact ((mem_matched_rows r rows companies).1 hr).2
  · intro h
    rw [create_filtered_documents_with_pandas, if_pos (by simp [h])]

/-- Entity and rows for the C9 witness: one matching row, one non-matching
row, and the non-matching row is absent from the output. -/
def c9wcompany : Company := ⟨"ガンマ電機", "6501"⟩

def c9wrowM : Row :=
  ⟨"D501", some "有価証券報告書", none, none, "65010", some "ガンマ電機", 20230601⟩

def c9wrowN : Row :=
  ⟨"D502", some "有価証券報告書", none, none, "1234", some "デルタ食品", 20230601⟩

/-- C9 witness: in a corpus where something matched, every output row matches
a tracked entity. -/
theorem C9_witness :
    ∃ c ∈ [c9wcompany], ¬(c.seccode = "") ∧ company_mask c c9wrowM = true :=
  (C9_zero_match_behaviour [c9wrowM, c9wrowN] [c9wcompany]).1 (by decide)
    c9wrowM (by decide)

/-! ## Indicator extractor (`xbrl/analyzer.py` / `xbrl_getter_async.py`,
`extract_financial_indicators`)

The tagged-text document is modelled as its list of tagged elements
`(tag name, context marker, element text)`.  The two regexes of the source
translate to the following element-level predicates:

* contextual pattern
  `<[^>]*:{tag} [^>]*contextRef="CurrentYearDuration"[^>]*>([^<]+)</...>`:
  the local tag name is exactly `tag` (the character after the last colon of
  the opening tag must start the literal `tag` followed by a space), the
  context marker is exactly `CurrentYearDuration` (the closing quote follows
  immediately), and the element text is non-empty;
* fallback pattern `<[^>]*:{tag}[^>]*>([^<]+)</[^>]*:{tag}>`: local tag
  name exactly `tag`, any context, non-empty text.  Although the opening-tag
  part `<[^>]*:{tag}[^>]*>` alone would also admit longer names beginning
  with `tag`, the closing part `</[^>]*:{tag}>` puts `>` right after the tag
  name, and the captured text `([^<]+)` cannot cross a `<`, so on a
  well-formed document the matched element opens and closes with the local
  name exactly `tag`. -/

structure TaggedElem where
  tag : String
  ctx : String
  body : String
deriving DecidableEq

def currentYearDuration : String := "CurrentYearDuration"

def ctxTagMatch (t : String) (e : TaggedElem) : Bool :=
  e.tag == t && e.ctx == currentYearDuration && !(e.body == "")

def fallbackTagMatch (t : String) (e : TaggedElem) : Bool :=
  e.tag == t && !(e.body == "")

/-- The `matches` list of the source's per-indicator loop: the contextual
matches if there are any, the fallback matches otherwise. -/
def consideredBodies (t : String) (els : List TaggedElem) : List String :=
  if ((els.filter (ctxTagMatch t)).map TaggedElem.body).isEmpty then
    (els.filter (fallbackTagMatch t)).map TaggedElem.body
  else
    (els.filter (ctxTagMatch t)).map TaggedElem.body

/-- `values = [int(m) for m in matches if parseable]; value = max(values)`:
non-numeric occurrences are skipped (`except ValueError: continue`); the raw
stored value is the maximum of the parsed values, or no value at all when
nothing parsed. -/
def extract_indicator_value (t : String) (els : List TaggedElem) : Option Int :=
  match (consideredBodies t els).filterMap parseIntStr with
  | [] => none
  | v :: vs => some (vs.foldl max v)

/-- The fixed table of the seven indicators `(tag, 日本語名)`. -/
def indicators : List (String × String) :=
  [("NetSales", "売上高"),
   ("GrossProfit", "売上総利益"),
   ("OperatingIncome", "営業利益"),
   ("OrdinaryIncome", "経常利益"),
   ("ProfitLoss", "当期純利益"),
   ("TotalAssets", "総資産"),
   ("NetAssets", "純資産")]

/-- `extract_financial_indicators`, restricted to the `_raw` integer entries
it stores (the scaled display strings are formatting of the same value). -/
def extract_financial_indicators (els : List TaggedElem) :
    List (String × Int) :=
  indicators.filterMap
    (fun ti => (extract_indicator_value ti.1 els).map (fun v => (ti.2, v)))

theorem foldl_max_mem (vs : List Int) :
    ∀ v : Int, vs.foldl max v ∈ v :: vs := by
  induction vs with
  | nil => intro v; exact List.mem_cons_self _ _
  | cons w ws ih =>
      intro v
      have h := ih (max v w)
      rcases List.mem_cons.1 h with h | h
      · rcases max_choice v w with hm | hm
        · rw [List.foldl_cons, h, hm]
          exact List.mem_cons_self _ _
        · rw [List.foldl_cons, h, hm]
          exact List.mem_cons_of_mem _ (List.mem_cons_self _ _)
      · exact List.mem_cons_of_mem _ (List.mem_cons_of_mem _ h)

theorem le_foldl_max (vs : List Int) :
    ∀ v : Int, ∀ w ∈ v :: vs, w ≤ vs.foldl max v := by
  induction vs with
  | nil =>
      intro v w hw
      rcases List.mem_cons.1 hw with rfl | hw
      · exact le_refl _
      · cases hw
  | cons u us ih =>
      intro v w hw
      rw [List.foldl_cons]
      rcases List.mem_cons.1 hw with rfl | hw
      · exact le_trans (le_max_left w u) (ih (max w u) _ (List.mem_cons_self _ _))
      · rcases List.mem_cons.1 hw with rfl | hw
        · exact le_trans (le_max_right v w) (ih (max v w) _ (List.mem_cons_self _ _))
        · exact ih (max v u) w (List.mem_cons_of_mem _ hw)

/-- C5: for each of the seven enumerated indicators — (1) when at least one
occurrence with the current-year-duration context exists, only those
occurrences are considered; (2) otherwise the fallback considers every
occurrence of the tag (with non-empty text), irrespective of its context
marker; (3) among the considered
occurrences that parse as integers, the extracted raw value is the maximum,
and it is recorded under the indicator's name; (4) non-numeric occurrences
are skipped rather than fatal: the value is absent only when nothing parsed.
-/
theorem C5_indicator_extraction (t d : String) (hin : (t, d) ∈ indicators)
    (els : List TaggedElem) :
    ((∃ e ∈ els, ctxTagMatch t e = true) →
        consideredBodies t els = (els.filter (ctxTagMatch t)).map TaggedElem.body) ∧
    ((¬ ∃ e ∈ els, ctxTagMatch t e = true) →
        consideredBodies t els
            = (els.filter (fallbackTagMatch t)).map TaggedElem.body ∧
        ∀ e ∈ els, e.tag = t → e.body ≠ "" → e.body ∈ consideredBodies t els) ∧
    (∀ v : Int, extract_indicator_value t els = some v →
        v ∈ (consideredBodies t els).filterMap parseIntStr ∧
        (∀ w ∈ (consideredBodies t els).filterMap parseIntStr, w ≤ v) ∧
        (d, v) ∈ extract_financial_indicators els) ∧
    (extract_indicator_value t els = none ↔
        (consideredBodies t els).filterMap parseIntStr = []) := by
  refine ⟨?_, ?_, ?_, ?_⟩
  · rintro ⟨e, he, hm⟩
    have hne : (els.filter (ctxTagMatch t)).map TaggedElem.body ≠ [] := by
      intro hnil
      have hmem : e.body ∈ (els.filter (ctxTagMatch t)).map TaggedElem.body :=
        List.mem_map_of_mem _ (List.mem_filter.2 ⟨he, hm⟩)
      rw [hnil] at hmem
      cases hmem
    rw [consideredBodies, if_neg (by simpa using hne)]
  · intro hno
    have hnil : (els.filter (ctxTagMatch t)).map TaggedElem.body = [] := by
      rw [List.map_eq_nil_iff, List.filter_eq_nil_iff]
      intro e he
      intro hm
      exact hno ⟨e, he, hm⟩
    have hcb : consideredBodies t els
        = (els.filter (fallbackTagMatch t)).map TaggedElem.body := by
      rw [consideredBodies, if_pos (by simp [hnil])]
    refine ⟨hcb, ?_⟩
    intro e he htag hbody
    rw [hcb]
    refine List.mem_map_of_mem _ (List.mem_filter.2 ⟨he, ?_⟩)
    simp [fallbackTagMatch, htag, hbody]
  · intro v hv
    have hv0 := hv
    rcases hp : (consideredBodies t els).filterMap parseIntStr with _ | ⟨v0, vs⟩
    · rw [extract_indicator_value, hp] at hv
      cases hv
    · rw [extract_indicator_value, hp] at hv
      have hveq : v = vs.foldl max v0 := by
        injection hv with h
        exact h.symm
      subst hveq
      refine ⟨foldl_max_mem vs v0, le_foldl_max vs v0, ?_⟩
      exact List.mem_filterMap.2 ⟨(t, d), hin, by simp [hv0]⟩
  · constructor
    · intro hnone
      rcases hp : (consideredBodies t els).filterMap parseIntStr with _ | ⟨v0, vs⟩
      · rfl
      · rw [extract_indicator_value, hp] at hnone
        cases hnone
    · intro hp
      rw [extract_indicator_value, hp]

/-- The 100/500 duplicate-occurrence document of the claim. -/
def c5demo : List TaggedElem :=
  [⟨"NetSales", "CurrentYearDuration", "100"⟩,
   ⟨"NetSales", "CurrentYearDuration", "500"⟩]

/-- C5 witness: two occurrences of the same indicator with values 100 and 500
extract to 500, recorded under 売上高. -/
theorem C5_witness :
    extract_indicator_value "NetSales" c5demo = some 500 ∧
    ("売上高", (500 : Int)) ∈ extract_financial_indicators c5demo := by
  have hex : extract_indicator_value "NetSales" c5demo = some 500 := by decide
  exact ⟨hex,
    ((C5_indicator_extraction "NetSales" "売上高" (by decide) c5demo).2.2.1
        500 hex).2.2⟩

/-! ## Aggregator (`xbrl/analyzer.py`, `create_pivot_tables`)

One indicator record per processed document: entity name (会社名), the 年度
derived from `document_date`, and the four `_raw` columns the pivot
aggregates.  A missing raw indicator (the record's dict has no such key, a
NaN cell in the DataFrame) is `none`.

`pd.pivot_table(index="年度", values=[the four raw columns], aggfunc="max")`
groups one company's records by year with the group keys sorted ascending,
takes the per-column maximum ignoring NaN, and — with its default
`dropna=True` — drops the aggregated rows in which all four values are NaN
(`agged.dropna(how="all")`).  `row.get(col, 0) / 1000000` then only rescales
each retained maximum for display, so the model keeps the raw maxima.
`pivot_table` raises `KeyError` when any of the four value columns is absent
from the frame, and `df["会社名"]` raises on an empty record list, so
`create_pivot_tables` models those executions as `none`; the
`"売上高_raw" in company_df.columns` guard (a frame-global condition) skips
every company when no record at all has 売上高_raw. -/

structure IndicatorRecord where
  kaishamei : String
  nendo : Int
  uriageRaw : Option Int
  eigyoRaw : Option Int
  keijoRaw : Option Int
  junriekiRaw : Option Int
deriving DecidableEq

structure TrendRecord where
  kaishamei : String
  nendo : Int
  uriage : Option Int
  eigyo : Option Int
  keijo : Option Int
  junrieki : Option Int
deriving DecidableEq

/-- Maximum of a list of parsed values, `none` when empty (a NaN cell). -/
def maxList? (l : List Int) : Option Int :=
  match l with
  | [] => none
  | v :: vs => some (vs.foldl max v)

/-- One (company, year) group of records. -/
def groupRecs (records : List IndicatorRecord) (c : String) (y : Int) :
    List IndicatorRecord :=
  records.filter (fun r => r.kaishamei == c && r.nendo == y)

def usableRec (r : IndicatorRecord) : Bool :=
  r.uriageRaw.isSome || r.eigyoRaw.isSome || r.keijoRaw.isSome ||
    r.junriekiRaw.isSome

/-- A group survives `dropna(how="all")` iff some record contributes at least
one of the four values. -/
def usableGroup (g : List IndicatorRecord) : Bool :=
  g.any usableRec

def insertSorted (x : Int) : List Int → List Int
  | [] => [x]
  | y :: ys => if x ≤ y then x :: y :: ys else y :: insertSorted x ys

/-- Ascending sort of the group keys (pivot_table sorts its index). -/
def sortInts (l : List Int) : List Int :=
  l.foldr insertSorted []

/-- The sorted distinct years of one company's records. -/
def yearsOf (records : List IndicatorRecord) (c : String) : List Int :=
  sortInts (dedupFirst
    ((records.filter (fun r => r.kaishamei == c)).map (fun r => r.nendo)))

/-- The aggregated row for one (company, year) group: per-indicator maximum
over the group, NaN (`none`) when no record in the group has the value. -/
def mkTrend (records : List IndicatorRecord) (c : String) (y : Int) :
    TrendRecord :=
  ⟨c, y,
   maxList? ((groupRecs records c y).filterMap (fun r => r.uriageRaw)),
   maxList? ((groupRecs records c y).filterMap (fun r => r.eigyoRaw)),
   maxList? ((groupRecs records c y).filterMap (fun r => r.keijoRaw)),
   maxList? ((groupRecs records c y).filterMap (fun r => r.junriekiRaw))⟩

/-- Year row construction including the `dropna(how="all")` row drop. -/
def pivotFun (records : List IndicatorRecord) (c : String) (y : Int) :
    Option TrendRecord :=
  if usableGroup (groupRecs records c y) then some (mkTrend records c y)
  else none

/-- The `for year, row in pivot.iterrows()` loop for one company. -/
def pivot_rows_for (records : List IndicatorRecord) (c : String) :
    List TrendRecord :=
  (yearsOf records c).filterMap (pivotFun records c)

/-- `col in df.columns` for one of the raw indicator columns: the DataFrame
built from the record dicts has the column iff some record carries the key. -/
def hasColumn (records : List IndicatorRecord)
    (f : IndicatorRecord → Option Int) : Bool :=
  records.any (fun r => (f r).isSome)

/-- `create_pivot_tables(financial_data_list)`, returning the `all_trends`
rows; `none` models the uncaught exceptions (empty input, or a missing value
column making `pivot_table` raise `KeyError`). -/
def create_pivot_tables (records : List IndicatorRecord) :
    Option (List TrendRecord) :=
  if records.isEmpty then none
  else if !(hasColumn records (fun r => r.uriageRaw)) then some []
  else if !(hasColumn records (fun r => r.eigyoRaw) &&
            hasColumn records (fun r => r.keijoRaw) &&
            hasColumn records (fun r => r.junriekiRaw)) then none
  else some ((dedupFirst (records.map (fun r => r.kaishamei))).flatMap
    (pivot_rows_for records))

theorem insertSorted_perm (x : Int) :
    ∀ l : List Int, (insertSorted x l).Perm (x :: l) := by
  intro l
  induction l with
  | nil => exact List.Perm.refl _
  | cons y ys ih =>
      rw [insertSorted]
      by_cases h : x ≤ y
      · rw [if_pos h]
      · rw [if_neg h]
        exact (ih.cons y).trans (List.Perm.swap x y ys)

theorem sortInts_perm (l : List Int) : (sortInts l).Perm l := by
  induction l with
  | nil => exact List.Perm.refl _
  | cons x xs ih =>
      exact (insertSorted_perm x (sortInts xs)).trans (ih.cons x)

theorem mem_sortInts (a : Int) (l : List Int) : a ∈ sortInts l ↔ a ∈ l :=
  (sortInts_perm l).mem_iff

theorem nodup_sortInts (l : List Int) (h : l.Nodup) : (sortInts l).Nodup :=
  (sortInts_perm l).symm.nodup h

theorem mem_yearsOf (records : List IndicatorRecord) (c : String) (y : Int) :
    y ∈ yearsOf records c ↔
      ∃ r ∈ records, r.kaishamei = c ∧ r.nendo = y := by
  rw [yearsOf, mem_sortInts, mem_dedupFirst]
  simp only [List.mem_map, List.mem_filter, beq_iff_eq]
  constructor
  · rintro ⟨r, ⟨hr, hc⟩, hy⟩
    exact ⟨r, hr, hc, hy⟩
  · rintro ⟨r, hr, hc, hy⟩
    exact ⟨r, ⟨hr, hc⟩, hy⟩

theorem nodup_yearsOf (records : List IndicatorRecord) (c : String) :
    (yearsOf records c).Nodup :=
  nodup_sortInts _ (nodup_dedupFirst _)

theorem countP_flatMap {α β : Type} (p : β → Bool) :
    ∀ (L : List α) (f : α → List β),
      (L.flatMap f).countP p = (L.map (fun a => (f a).countP p)).sum := by
  intro L f
  induction L with
  | nil => simp
  | cons a as ih =>
      simp [List.flatMap_cons, List.countP_append, ih]

theorem mem_pivot_rows_for (records : List IndicatorRecord) (c : String)
    (tr : TrendRecord) :
    tr ∈ pivot_rows_for records c ↔
      ∃ y, y ∈ yearsOf records c ∧
        usableGroup (groupRecs records c y) = true ∧
        tr = mkTrend records c y := by
  rw [pivot_rows_for]
  simp only [List.mem_filterMap]
  constructor
  · rintro ⟨y, hy, hf⟩
    rw [pivotFun] at hf
    by_cases hu : usableGroup (groupRecs records c y) = true
    · rw [if_pos hu] at hf
      injection hf with hf
      exact ⟨y, hy, hu, hf.symm⟩
    · rw [if_neg hu] at hf
      cases hf
  · rintro ⟨y, hy, hu, rfl⟩
    exact ⟨y, hy, by rw [pivotFun, if_pos hu]⟩

/-- Within the block of a company `c' ≠ c`, no row counts for `(c, y)`. -/
theorem countP_pivot_block_ne (records : List IndicatorRecord)
    (cf c : String) (y : Int) (hne : cf ≠ c) :
    (pivot_rows_for records cf).countP
        (fun tr => tr.kaishamei == c && tr.nendo == y) = 0 := by
  rw [List.countP_eq_zero]
  intro tr htr
  obtain ⟨y', _, _, rfl⟩ := (mem_pivot_rows_for records cf tr).1 htr
  simp [mkTrend, hne]

/-- Within the block of company `c` itself, the `(c, y)` rows are counted
once exactly when `y` is one of the company's years and its group is
usable. -/
theorem countP_pivot_years (records : List IndicatorRecord) (c : String)
    (y : Int) :
    ∀ yl : List Int, yl.Nodup →
      ((yl.filterMap (pivotFun records c)).countP
          (fun tr => tr.kaishamei == c && tr.nendo == y))
        = if y ∈ yl ∧ usableGroup (groupRecs records c y) = true then 1
          else 0 := by
  intro yl
  induction yl with
  | nil => intro _; simp
  | cons y' ys ih =>
      intro hnd
      have hy'notin : y' ∉ ys := (List.nodup_cons.1 hnd).1
      have ihys := ih (List.nodup_cons.1 hnd).2
      by_cases hu : usableGroup (groupRecs records c y') = true
      · rw [List.filterMap_cons_some (by rw [pivotFun, if_pos hu]),
          List.countP_cons, ihys]
        by_cases hyy : y' = y
        · subst hyy
          simp [mkTrend, hy'notin, hu]
        · have hyy' : ¬(y = y') := fun h => hyy h.symm
          simp [mkTrend, hyy, hyy', List.mem_cons]
      · rw [List.filterMap_cons_none (by rw [pivotFun, if_neg hu]), ihys]
        by_cases hyy : y' = y
        · subst hyy
          simp [hy'notin, hu]
        · have hyy' : ¬(y = y') := fun h => hyy h.symm
          simp [hyy', List.mem_cons]

/-- Summing a function over a duplicate-free list in which it vanishes
everywhere except at `c`. -/
theorem map_sum_single {α : Type} [DecidableEq α] :
    ∀ (L : List α), L.Nodup → ∀ c ∈ L, ∀ f : α → Nat,
      (∀ x ∈ L, x ≠ c → f x = 0) → (L.map f).sum = f c := by
  intro L
  induction L with
  | nil => intro _ c hc; cases hc
  | cons a as ih =>
      intro hnd c hc f hf
      rcases List.mem_cons.1 hc with rfl | hc
      · have hzero : (as.map f).sum = 0 := by
          refine List.sum_eq_zero ?_
          intro x hx
          obtain ⟨x', hx', rfl⟩ := List.mem_map.1 hx
          refine hf x' (List.mem_cons_of_mem _ hx') ?_
          rintro rfl
          exact (List.nodup_cons.1 hnd).1 hx'
        simp [hzero]
      · have ha : f a = 0 := by
          refine hf a (List.mem_cons_self _ _) ?_
          rintro rfl
          exact (List.nodup_cons.1 hnd).1 hc
        have := ih (List.nodup_cons.1 hnd).2 c hc f
          (fun x hx hne => hf x (List.mem_cons_of_mem _ hx) hne)
        simp [ha, this]

/-- A run containing a fully-usable group ("Y", 2020) and a group
("X", 2021) none of whose records carries any of the four indicators. -/
def c8xrecords : List IndicatorRecord :=
  [⟨"Y", 2020, some 1, some 1, some 1, some 1⟩,
   ⟨"X", 2021, none, none, none, none⟩]

/-- C8 counterexample: the ("X", 2021) group exists in the input but no
TrendRecord is emitted for it — `pivot_table`'s default
`dropna` drops the all-NaN aggregated row, so a group with no usable
indicator is *not* emitted. -/
theorem C8_counterexample :
    create_pivot_tables c8xrecords
      = some [⟨"Y", 2020, some 1, some 1, some 1, some 1⟩] ∧
    (∃ r ∈ c8xrecords, r.kaishamei = "X" ∧ r.nendo = 2021) ∧
    (∀ tr ∈ [(⟨"Y", 2020, some 1, some 1, some 1, some 1⟩ : TrendRecord)],
        ¬(tr.kaishamei = "X" ∧ tr.nendo = 2021)) := by
  decide

/-- C8 amended: on a run where each of the four raw columns is present
somewhere (otherwise the source skips every company or raises), the
aggregator emits exactly one TrendRecord per (entity name, fiscal year)
group that has at least one usable indicator, whose value for each indicator
is the maximum of that indicator over the records of the group (`none` when
no record in the group has it); groups in which no indicator is usable are
dropped, not emitted. -/
theorem C8_aggregator_grouping (records : List IndicatorRecord)
    (h0 : records ≠ [])
    (h1 : hasColumn records (fun r => r.uriageRaw) = true)
    (h2 : hasColumn records (fun r => r.eigyoRaw) = true)
    (h3 : hasColumn records (fun r => r.keijoRaw) = true)
    (h4 : hasColumn records (fun r => r.junriekiRaw) = true) :
    ∃ ts : List TrendRecord,
      create_pivot_tables records = some ts ∧
      (∀ (c : String) (y : Int),
        usableGroup (groupRecs records c y) = true →
          ts.countP (fun tr => tr.kaishamei == c && tr.nendo == y) = 1) ∧
      (∀ tr ∈ ts,
        usableGroup (groupRecs records tr.kaishamei tr.nendo) = true ∧
        tr.uriage = maxList?
          ((groupRecs records tr.kaishamei tr.nendo).filterMap
            (fun r => r.uriageRaw)) ∧
        tr.eigyo = maxList?
          ((groupRecs records tr.kaishamei tr.nendo).filterMap
            (fun r => r.eigyoRaw)) ∧
        tr.keijo = maxList?
          ((groupRecs records tr.kaishamei tr.nendo).filterMap
            (fun r => r.keijoRaw)) ∧
        tr.junrieki = maxList?
          ((groupRecs records tr.kaishamei tr.nendo).filterMap
            (fun r => r.junriekiRaw))) := by
  have h0' : records.isEmpty = false := by
    cases records with
    | nil => exact absurd rfl h0
    | cons a as => rfl
  refine ⟨(dedupFirst (records.map (fun r => r.kaishamei))).flatMap
      (pivot_rows_for records), ?_, ?_, ?_⟩
  · rw [create_pivot_tables, if_neg (by simp [h0']), if_neg (by simp [h1]),
      if_neg (by simp [h2, h3, h4])]
  · intro c y hus
    have hex : ∃ r ∈ groupRecs records c y, usableRec r = true := by
      simpa [usableGroup, List.any_eq_true] using hus
    obtain ⟨r, hrg, _⟩ := hex
    have hrmem := List.mem_filter.1 hrg
    have hrcy : r.kaishamei = c ∧ r.nendo = y := by
      have := hrmem.2
      simpa using this
    have hcmem : c ∈ dedupFirst (records.map (fun r => r.kaishamei)) := by
      rw [mem_dedupFirst]
      exact List.mem_map.2 ⟨r, hrmem.1, hrcy.1⟩
    have hymem : y ∈ yearsOf records c :=
      (mem_yearsOf records c y).2 ⟨r, hrmem.1, hrcy.1, hrcy.2⟩
    have hsum := map_sum_single
      (dedupFirst (records.map (fun r => r.kaishamei)))
      (nodup_dedupFirst _) c hcmem
      (fun cf => (pivot_rows_for records cf).countP
        (fun tr => tr.kaishamei == c && tr.nendo == y))
      (fun cf _ hne => countP_pivot_block_ne records cf c y hne)
    rw [countP_flatMap, hsum]
    unfold pivot_rows_for
    dsimp only
    rw [countP_pivot_years records c y (yearsOf records c)
        (nodup_yearsOf records c),
      if_pos (And.intro hymem hus)]
  · intro tr htr
    obtain ⟨cf, hcf, htr'⟩ := List.mem_flatMap.1 htr
    obtain ⟨y, hy, hus, rfl⟩ := (mem_pivot_rows_for records cf tr).1 htr'
    exact ⟨hus, rfl, rfl, rfl, rfl⟩

/-- Two records of the same (company, year) group, with partially missing
indicators, for the C8 witness. -/
def c8wrecords : List IndicatorRecord :=
  [⟨"Y", 2020, some 5, some 3, some 2, some 1⟩,
   ⟨"Y", 2020, some 7, none, none, none⟩]

/-- C8 witness: the usable group ("Y", 2020) yields exactly one
TrendRecord. -/
theorem C8_witness :
    ∃ ts : List TrendRecord,
      create_pivot_tables c8wrecords = some ts ∧
      ts.countP (fun tr => tr.kaishamei == "Y" && tr.nendo == 2020) = 1 := by
  obtain ⟨ts, hts, hcount, _⟩ := C8_aggregator_grouping c8wrecords
    (by decide) (by decide) (by decide) (by decide) (by decide)
  exact ⟨ts, hts, hcount "Y" 2020 (by decide)⟩
